import Mathlib

/-!
Verification of the Canyon CPQ quote-approval workflow engine.

The definitions below are shallow embeddings of the TypeScript and SQL
source of the repository: statuses, personas and actions are kept as the
string values the source compares against, monetary and percentage values
are rationals, and each embedded function mirrors the control flow of the
source function it is named after.
-/

namespace CanyonCPQ

/-- JavaScript s.startsWith(pre), embedded on the character lists of the strings. -/
def jsStartsWith (s pre : String) : Bool :=
  decide (pre.data <+: s.data)

/-- JavaScript s.includes(pat), embedded on the character lists of the strings. -/
def jsIncludes (s pat : String) : Bool :=
  decide (pat.data <:+: s.data)

/-- JavaScript s.trim(), embedded structurally on the character list: drop
whitespace from both ends. -/
def jsTrim (s : String) : String :=
  String.mk (((s.data.dropWhile Char.isWhitespace).reverse.dropWhile Char.isWhitespace).reverse)

/-- One approval gate for one persona on one quote, mirroring the WorkflowStep
record of the source (types/quote.ts and the workflow_steps table). -/
structure WorkflowStep where
  id : String
  quote_id : String
  persona : String
  name : String
  step_order : Nat
  status : String
  rejection_reason : Option String
  completedAt : Option String
  comments : Option String
  auto_approved : Bool
  deriving DecidableEq, Repr

/-- A quote record, with the attributes the workflow engine reads. -/
structure Quote where
  id : String
  user_id : String
  status : String
  discount_percent : ℚ
  total_amount : ℚ
  has_custom_payment_terms : Bool
  deriving DecidableEq, Repr

/-- Makes a fresh pending step the way WorkflowEngine.generateWorkflowSteps does:
synthetic id step-{order}, given persona and display name, status pending. -/
def mkPendingStep (q : Quote) (ord : Nat) (persona nm : String) : WorkflowStep :=
  { id := "step-" ++ toString ord
    quote_id := q.id
    persona := persona
    name := nm
    step_order := ord
    status := "pending"
    rejection_reason := none
    completedAt := none
    comments := none
    auto_approved := false }

/-- WorkflowEngine.generateWorkflowSteps (frontend/lib/workflow-engine.ts lines 4-53):
deal desk always; CRO if discount > 15 or amount > 100000; legal always;
finance if discount > 40 or custom payment terms. The order counter increments
with each pushed step. -/
def generateWorkflowSteps (q : Quote) : List WorkflowStep :=
  let s1 := [mkPendingStep q 1 "deal_desk" "Deal Desk Review"]
  let hasCro : Bool := decide (15 < q.discount_percent) || decide (100000 < q.total_amount)
  let s2 := if hasCro then s1 ++ [mkPendingStep q 2 "cro" "CRO Approval"] else s1
  let legalOrd := if hasCro then 3 else 2
  let s3 := s2 ++ [mkPendingStep q legalOrd "legal" "Legal Review"]
  let hasFin : Bool := decide (40 < q.discount_percent) || q.has_custom_payment_terms
  if hasFin then s3 ++ [mkPendingStep q (legalOrd + 1) "finance" "Finance Review"] else s3

/-- The approval-workflow preview rendered by the create-quote form
(create-quote-form.tsx lines 622-675), as the ordered persona list it shows
for an overall discount d: Account Executive, Deal Desk, CRO when d > 15,
Finance when d > 40, Legal, Customer Delivery. -/
def previewWorkflow (d : ℚ) : List String :=
  ["ae", "deal_desk"]
    ++ (if 15 < d then ["cro"] else [])
    ++ (if 40 < d then ["finance"] else [])
    ++ ["legal", "customer"]

/-- The transition table of WorkflowEngine.getNextStatus (workflow-engine.ts
lines 56-88), as an association list status -> action -> next status. -/
def transitionsTable : List (String × List (String × String)) :=
  [ ("draft", [("submit", "pending_deal_desk"), ("cancel", "cancelled")])
  , ("draft_reopened", [("submit", "pending_deal_desk"), ("cancel", "cancelled")])
  , ("pending_deal_desk", [("approve", "pending_cro"), ("reject", "rejected"), ("cancel", "cancelled")])
  , ("pending_cro", [("approve", "pending_legal"), ("reject", "rejected"), ("cancel", "cancelled")])
  , ("pending_legal", [("approve", "pending_finance"), ("reject", "rejected"), ("cancel", "cancelled")])
  , ("pending_finance", [("approve", "approved"), ("reject", "rejected"), ("cancel", "cancelled")])
  , ("rejected", [("reopen", "draft_reopened")]) ]

/-- JavaScript v || d on strings: a missing or empty (falsy) v yields d. -/
def jsOrString (v : Option String) (d : String) : String :=
  match v with
  | some s => if s = "" then d else s
  | none => d

/-- WorkflowEngine.getNextStatus (workflow-engine.ts line 90):
transitions[currentStatus]?.[action] || currentStatus. -/
def getNextStatus (currentStatus action : String) : String :=
  jsOrString ((transitionsTable.lookup currentStatus).bind fun row => row.lookup action)
    currentStatus

/-- WorkflowEngine.canPerformAction (workflow-engine.ts lines 93-107): the AE
branch returns true for cancel (until approved), reopen (from rejected) and
submit (from draft states); then any persona may approve or reject exactly
when the quote status is pending_{persona}; everything else is false. -/
def canPerformAction (q : Quote) (persona action : String) : Bool :=
  if persona = "ae" && action = "cancel" && !(q.status = "approved") then true
  else if persona = "ae" && action = "reopen" && q.status = "rejected" then true
  else if persona = "ae" && action = "submit"
      && (q.status = "draft" || q.status = "draft_reopened") then true
  else if action = "approve" || action = "reject" then
    q.status = "pending_" ++ persona
  else false

/-- WorkflowEngine.canApproveStep (workflow-engine.ts lines 123-127): all steps
with a lower step_order must already be approved. The quote argument is unused
in the source body and kept for signature fidelity. -/
def canApproveStep (_quote : Quote) (stepOrder : Nat) (allSteps : List WorkflowStep) : Bool :=
  (allSteps.filter fun s => s.step_order < stepOrder).all fun s => s.status = "approved"

/-- The per-step mapper of WorkflowEngine.handleCascadingRejection: a step at
or after the rejected order becomes rejected with completedAt set to the
current time — the rejected step itself records the actor notes, later steps
record the fixed cascade reason — and earlier steps are returned as-is. -/
def cascadeUpdate (now : String) (rejectedStepOrder : Nat) (rejectionNotes : String)
    (step : WorkflowStep) : WorkflowStep :=
  if rejectedStepOrder ≤ step.step_order then
    { step with
        status := "rejected"
        completedAt := some now
        rejection_reason := some (if step.step_order = rejectedStepOrder
          then rejectionNotes else "Cascaded rejection from previous step") }
  else step

/-- WorkflowEngine.handleCascadingRejection (workflow-engine.ts lines 129-145):
maps the cascade update over all steps of the quote. -/
def handleCascadingRejection (now : String) (steps : List WorkflowStep)
    (rejectedStepOrder : Nat) (rejectionNotes : String) : List WorkflowStep :=
  steps.map (cascadeUpdate now rejectedStepOrder rejectionNotes)

/-- A quote used only to fill the unused quote parameter of canApproveStep. -/
def dummyQuote : Quote :=
  { id := "", user_id := "", status := "", discount_percent := 0
    total_amount := 0, has_custom_payment_terms := false }

/-- Modelled from the spec: the orchestrator that applies an approval to the
step with the given sequence position is not under src/ (the backend service
is absent); per the spec it applies the transition only when the step is
pending and WorkflowEngine.canApproveStep allows it, and otherwise fails
without mutating any state. The guard itself is the embedded source function. -/
def approveStepGuarded (steps : List WorkflowStep) (ord : Nat) : Option (List WorkflowStep) :=
  if steps.any (fun s => s.step_order = ord && s.status = "pending")
      && canApproveStep dummyQuote ord steps then
    some (steps.map fun s =>
      if s.step_order = ord then { s with status := "approved" } else s)
  else
    none

/-- Modelled from the spec: the states of one quote's step list reachable from
an initial state by guarded approvals and cascading rejections (the rejection
cascade is the embedded WorkflowEngine.handleCascadingRejection; rejections
are allowed unconditionally here, which only enlarges the reachable set). -/
inductive Reachable : List WorkflowStep → List WorkflowStep → Prop
  | refl (s : List WorkflowStep) : Reachable s s
  | approve {init s s' : List WorkflowStep} {ord : Nat} :
      Reachable init s → approveStepGuarded s ord = some s' → Reachable init s'
  | reject {init s : List WorkflowStep} (now : String) (k : Nat) (notes : String) :
      Reachable init s → Reachable init (handleCascadingRejection now s k notes)

/-- Sequential-approval invariant: no step is approved while a step at a lower
sequence position is not approved. -/
def SeqInv (steps : List WorkflowStep) : Prop :=
  ∀ s ∈ steps, s.status = "approved" →
    ∀ t ∈ steps, t.step_order < s.step_order → t.status = "approved"

/-- All steps of a freshly materialized chain are pending. -/
def AllPending (steps : List WorkflowStep) : Prop :=
  ∀ s ∈ steps, s.status = "pending"

/-- The quote-level state the database operates on: the quote status together
with the quote's workflow steps. -/
structure EngineState where
  quote_status : String
  steps : List WorkflowStep
  deriving DecidableEq, Repr

/-- The NOT EXISTS subquery of the auto_approve_customer_step trigger
(database setup SQL lines 210-216): no non-customer step has a status outside
approved/skipped. -/
def allInternalApproved (steps : List WorkflowStep) : Bool :=
  steps.all fun s =>
    s.persona = "customer" || s.status = "approved" || s.status = "skipped"

/-- The UPDATE ... WHERE id = stepId SET status = approved issued for an
approval, as a pure state transformer. -/
def setStepApproved (st : EngineState) (stepId : String) : EngineState :=
  { st with steps := st.steps.map fun s =>
      if s.id = stepId then { s with status := "approved" } else s }

/-- The body of the SQL trigger auto_approve_customer_step (database setup SQL
lines 197-240), fired after a row update with the given OLD and NEW status:
when the update is a fresh approval and every non-customer step is approved or
skipped, every pending customer step becomes approved (auto_approved, fixed
comment, approval time), and if such a step existed the quote status becomes
approved. -/
def runAutoApproveTrigger (now : String) (st : EngineState)
    (oldStatus newStatus : String) : EngineState :=
  if newStatus = "approved" && !(oldStatus = "approved") then
    if allInternalApproved st.steps then
      let customerUpdated := st.steps.any fun s =>
        s.persona = "customer" && s.status = "pending"
      { quote_status := if customerUpdated then "approved" else st.quote_status
        steps := st.steps.map fun s =>
          if s.persona = "customer" && s.status = "pending" then
            { s with
                status := "approved"
                auto_approved := true
                completedAt := some now
                comments := some "Auto-approved: All internal approvals completed" }
          else s }
    else st
  else st

/-- One approval operation against the database: the UPDATE setting the target
step approved together with the AFTER UPDATE trigger it fires, executed as a
single atomic state transition (trigger semantics). -/
def applyApprove (now : String) (st : EngineState) (stepId : String) : EngineState :=
  match st.steps.find? (fun s => s.id = stepId) with
  | none => st
  | some old => runAutoApproveTrigger now (setStepApproved st stepId) old.status "approved"

/-- The outcome of a frontend handler: a silent early return, a raised error,
or the request it hands to the API client. -/
inductive ActionOutcome where
  | silentNoop : ActionOutcome
  | errorOut : String → ActionOutcome
  | request : String → String → ActionOutcome
  deriving DecidableEq, Repr

/-- APIClient.request (api-client lines 18-25): before anything is sent, a
temporary-step approve/reject endpoint is blocked with an error; otherwise the
request for that endpoint goes out. -/
def apiRequest (endpoint : String) : ActionOutcome :=
  if jsIncludes endpoint "/workflow/steps/step-"
      && (jsIncludes endpoint "/approve" || jsIncludes endpoint "/reject") then
    ActionOutcome.errorOut "Cannot perform actions on temporary step IDs"
  else
    ActionOutcome.request "POST" endpoint

/-- APIClient.approveStep (api-client lines 127-137): its own temporary-id
guard throws before the request is attempted. -/
def apiApproveStep (stepId : String) : ActionOutcome :=
  if jsStartsWith stepId "step-" then
    ActionOutcome.errorOut "Cannot approve step with temporary ID"
  else
    apiRequest ("/api/workflow/steps/" ++ stepId ++ "/approve")

/-- APIClient.rejectStep (api-client lines 139-144): no guard of its own, the
shared request guard is the only check. -/
def apiRejectStep (stepId : String) : ActionOutcome :=
  apiRequest ("/api/workflow/steps/" ++ stepId ++ "/reject")

/-- useWorkflowActions approve mutation (hooks/use-quotes.ts lines 69-77):
throws on a temporary id, otherwise delegates to APIClient.approveStep. -/
def workflowApproveMutation (stepId : String) : ActionOutcome :=
  if jsStartsWith stepId "step-" then
    ActionOutcome.errorOut "Cannot approve step with temporary ID"
  else
    apiApproveStep stepId

/-- useWorkflowActions reject mutation (hooks/use-quotes.ts lines 90-97):
throws on a temporary id, otherwise delegates to APIClient.rejectStep. -/
def workflowRejectMutation (stepId : String) : ActionOutcome :=
  if jsStartsWith stepId "step-" then
    ActionOutcome.errorOut "Cannot reject step with temporary ID"
  else
    apiRejectStep stepId

/-- Whether a handler outcome is an error. -/
def ActionOutcome.isError : ActionOutcome → Bool
  | ActionOutcome.errorOut _ => true
  | _ => false

/-- The reject path of handleAction in the quote detail modal (lines 102-181):
a blank (trimmed-empty) reason returns early; otherwise the pending step of the
acting persona is looked up; a temporary id throws; otherwise the reject
mutation is invoked with the step id and the actor text. When no step of the
persona is pending the handler falls through without issuing a request. -/
def handleActionReject (comments : String) (steps : List WorkflowStep)
    (currentPersona : String) : ActionOutcome :=
  if jsTrim comments = "" then ActionOutcome.silentNoop
  else
    match steps.find? (fun s => s.persona = currentPersona && s.status = "pending") with
    | some st =>
        if jsStartsWith st.id "step-" then
          ActionOutcome.errorOut "Cannot approve step with temporary ID"
        else ActionOutcome.request st.id comments
    | none => ActionOutcome.silentNoop

/-- handleRejectQuote in the quotes manager (quotes-manager.tsx lines 156-181):
a cancelled or empty prompt returns early; otherwise the pending step of the
persona is looked up and the reject request issued with the supplied reason. -/
def handleRejectQuote (reason : Option String) (steps : List WorkflowStep)
    (currentPersona : String) : ActionOutcome :=
  match reason with
  | none => ActionOutcome.silentNoop
  | some r =>
      if r = "" then ActionOutcome.silentNoop
      else
        match steps.find? (fun s => s.persona = currentPersona && s.status = "pending") with
        | some st => ActionOutcome.request st.id r
        | none => ActionOutcome.silentNoop

/-- getAvailableActions in quote-actions.tsx (lines 35-61): the ordered list of
actions offered for the quote to the current persona. -/
def getAvailableActions (q : Quote) (persona : String) : List String :=
  if persona = "ae" then
    (if q.status = "draft" || q.status = "draft_reopened" then ["submit"] else [])
      ++ (if q.status = "rejected" then ["reopen"] else [])
      ++ (if !(q.status = "approved") && !(q.status = "cancelled")
            && !(q.status = "rejected") then ["cancel"] else [])
  else
    if q.status = "pending_" ++ persona then ["approve", "reject"] else []

/-- The reason string handleQuoteAction passes to terminateQuote
(quotes-manager.tsx line 62): comments || fixed default, so a missing or
empty reason is replaced by the fixed text. -/
def terminateReason (comments : Option String) : String :=
  match comments with
  | some c => if c = "" then "Terminated by user" else c
  | none => "Terminated by user"

/-- An API call issued by handleQuoteAction. -/
inductive ApiCall where
  | reopenQuote : String → ApiCall
  | terminateQuote : String → String → ApiCall
  deriving DecidableEq, Repr

/-- handleQuoteAction in the quotes manager (quotes-manager.tsx lines 52-78):
reopen calls reopenQuote; cancel and terminate call terminateQuote with the
defaulted reason; other actions issue no call. -/
def handleQuoteAction (quoteId action : String) (comments : Option String) : Option ApiCall :=
  if action = "reopen" then some (ApiCall.reopenQuote quoteId)
  else if action = "cancel" || action = "terminate" then
    some (ApiCall.terminateQuote quoteId (terminateReason comments))
  else none

/-- Renumbers a step list from position n upward, the way the workflow builder
maps (step, index) to order := index + 1. -/
def renumberFrom (n : Nat) : List WorkflowStep → List WorkflowStep
  | [] => []
  | s :: ss => { s with step_order := n } :: renumberFrom (n + 1) ss

/-- removeStep in the workflow visualization (workflow-visualization.tsx lines
279-290): filter the step out, then renumber positions 1..N. -/
def removeStep (steps : List WorkflowStep) (stepId : String) : List WorkflowStep :=
  renumberFrom 1 (steps.filter fun s => !(s.id = stepId))

/-- handleDrop in the workflow visualization (workflow-visualization.tsx lines
161-197): dropping a step onto itself or with an unknown id leaves the list
untouched; otherwise the dragged step is spliced out, re-inserted at the
target index, and all positions renumbered 1..N. -/
def handleDrop (steps : List WorkflowStep) (draggedId targetId : String) : List WorkflowStep :=
  if draggedId = targetId then steps
  else if steps.any (fun s => s.id = draggedId) && steps.any (fun s => s.id = targetId) then
    let di := steps.findIdx fun s => s.id = draggedId
    let ti := steps.findIdx fun s => s.id = targetId
    match steps[di]? with
    | some removed => renumberFrom 1 ((steps.eraseIdx di).insertIdx ti removed)
    | none => steps
  else steps

/-- addNewStep in the workflow visualization (lines 262-277): append a fresh
pending step for the persona with order length + 1 and a timestamp id. -/
def addNewStep (steps : List WorkflowStep) (persona nowId : String) : List WorkflowStep :=
  steps ++ [{ id := "step-" ++ nowId
              quote_id := ""
              persona := persona
              name := persona ++ " Review"
              step_order := steps.length + 1
              status := "pending"
              rejection_reason := none
              completedAt := none
              comments := none
              auto_approved := false }]

/-- The fresh account-executive step that handleWorkflowUpdate unshifts when
the edit dropped it (sidebar.tsx lines 463-469): a temporary ae-step id, the
fixed review name, pending status, position 1. -/
def aeStep (nowId : String) : WorkflowStep :=
  { id := "ae-step-" ++ nowId
    quote_id := ""
    persona := "ae"
    name := "Account Executive Review"
    step_order := 1
    status := "pending"
    rejection_reason := none
    completedAt := none
    comments := none
    auto_approved := false }

/-- handleWorkflowUpdate in the workflow sidebar (sidebar.tsx lines 454-519),
wired as onWorkflowUpdate of the editable workflow visualization: before every
save of an edited draft chain it re-establishes the account-executive bookend.
If no ae step exists, a fresh one is unshifted to the front and all positions
renumbered index + 1; if an ae step exists but is not first, it is spliced out,
unshifted, and all positions renumbered; if the ae step is already first the
list is saved as it came (the edit operations themselves renumber). -/
def handleWorkflowUpdate (nowId : String) (steps : List WorkflowStep) : List WorkflowStep :=
  if steps.any (fun s => s.persona = "ae") then
    let aeIdx := steps.findIdx fun s => s.persona = "ae"
    if aeIdx = 0 then steps
    else
      match steps[aeIdx]? with
      | some ae => renumberFrom 1 (ae :: steps.eraseIdx aeIdx)
      | none => steps
  else
    renumberFrom 1 (aeStep nowId :: steps)

/-- The list n, n+1, ..., n+len-1 of expected contiguous sequence positions. -/
def natsFrom (n len : Nat) : List Nat :=
  match len with
  | 0 => []
  | m + 1 => n :: natsFrom (n + 1) m

/-- A concrete step fixture with the given id, persona, position and status. -/
def fixStep (sid persona : String) (ord : Nat) (status : String) : WorkflowStep :=
  { id := sid
    quote_id := "q"
    persona := persona
    name := persona
    step_order := ord
    status := status
    rejection_reason := none
    completedAt := none
    comments := none
    auto_approved := false }

/-- A quote with a 10 percent discount, a 50000 total and custom payment terms. -/
def q10custom : Quote :=
  { id := "q1", user_id := "u1", status := "draft", discount_percent := 10
    total_amount := 50000, has_custom_payment_terms := true }

/-- A quote with a 10 percent discount, a 50000 total, no custom payment terms. -/
def q10plain : Quote :=
  { id := "q8", user_id := "u1", status := "draft", discount_percent := 10
    total_amount := 50000, has_custom_payment_terms := false }

/-- A quote in rejected status owned by u1. -/
def rejectedQuote : Quote :=
  { id := "q7", user_id := "u1", status := "rejected", discount_percent := 10
    total_amount := 50000, has_custom_payment_terms := false }

/-- A three-step chain with the first step approved, the rest pending. -/
def cascadeSteps : List WorkflowStep :=
  [ fixStep "a1" "deal_desk" 1 "approved"
  , fixStep "a2" "legal" 2 "pending"
  , fixStep "a3" "customer" 3 "pending" ]

/-- A freshly materialized two-step chain, all steps pending. -/
def freshSteps : List WorkflowStep :=
  [fixStep "b1" "deal_desk" 1 "pending", fixStep "b2" "legal" 2 "pending"]

/-- An engine state one internal approval away from completion. -/
def almostDone : EngineState :=
  { quote_status := "pending_legal"
    steps := [ fixStep "c1" "deal_desk" 1 "approved"
             , fixStep "c2" "legal" 2 "pending"
             , fixStep "c3" "customer" 3 "pending" ] }

/-- A draft chain holding the account-executive bookend and two more steps. -/
def builderSteps : List WorkflowStep :=
  [fixStep "s1" "ae" 1 "pending", fixStep "s2" "deal_desk" 2 "pending",
   fixStep "s3" "legal" 3 "pending"]

end CanyonCPQ

namespace CanyonCPQ

/-- Claim C1: the spec's discount policy chain (ae first, customer last, deal
desk and legal always, cro iff d > 15, finance iff d > 40 or custom terms) is
produced by neither chain-producing function in the source. At discount 10
with custom payment terms, WorkflowEngine.generateWorkflowSteps yields
deal_desk, legal, finance — no account-executive start and no customer end —
while the create-quote-form preview yields ae, deal_desk, legal, customer —
omitting finance although the custom-terms flag is set. -/
theorem C1_policy_eval :
    (generateWorkflowSteps q10custom).map (fun s => s.persona)
        = ["deal_desk", "legal", "finance"]
    ∧ previewWorkflow q10custom.discount_percent = ["ae", "deal_desk", "legal", "customer"]
    ∧ q10custom.has_custom_payment_terms = true
    ∧ (0 : ℚ) ≤ q10custom.discount_percent ∧ q10custom.discount_percent ≤ 100 := by
  refine ⟨by decide, by decide, by decide, by decide, by decide⟩

/-- Claim C8: evaluating the source at the discount-10 scenario. The chain
generateWorkflowSteps produces is deal_desk, legal — not ae, deal_desk, legal,
customer — and getNextStatus sends pending_deal_desk + approve to pending_cro
and pending_legal + approve to pending_finance regardless of which personas
the chain actually contains, so the claimed deal-desk-to-legal and
legal-to-approved progression does not happen in this code. Submission does
map draft to pending_deal_desk. -/
theorem C8_scenario_eval :
    (generateWorkflowSteps q10plain).map (fun s => s.persona) = ["deal_desk", "legal"]
    ∧ getNextStatus "draft" "submit" = "pending_deal_desk"
    ∧ getNextStatus "pending_deal_desk" "approve" = "pending_cro"
    ∧ getNextStatus "pending_legal" "approve" = "pending_finance" := by
  refine ⟨by decide, by decide, by decide, by decide⟩

/-- Claim C10: getNextStatus is total and defaults to the identity — for every
pair of strings it returns a status, and whenever the pair is not listed in
the transition table (in particular approve, reject and submit on an approved
or terminated quote) it returns the current status unchanged. -/
theorem C10_total_identity_default (cur act : String) :
    (((transitionsTable.lookup cur).bind fun row => row.lookup act) = none →
      getNextStatus cur act = cur)
    ∧ getNextStatus "approved" "approve" = "approved"
    ∧ getNextStatus "approved" "reject" = "approved"
    ∧ getNextStatus "approved" "submit" = "approved"
    ∧ getNextStatus "terminated" "approve" = "terminated"
    ∧ getNextStatus "terminated" "reject" = "terminated"
    ∧ getNextStatus "terminated" "submit" = "terminated" := by
  refine ⟨fun h => ?_, by decide, by decide, by decide, by decide, by decide, by decide⟩
  unfold getNextStatus
  rw [h]
  rfl

/-- Witness for C10 at the concrete pair approved/submit, which is absent from
the transition table. -/
theorem C10_total_identity_default_witness :
    getNextStatus "approved" "submit" = "approved" :=
  (C10_total_identity_default "approved" "submit").1 (by decide)

/-- Claim C2: rejecting at position k preserves the shape of the list, forces
every step at position at least k to rejected — the step at position k with
the actor's reason, every later step with the fixed cascade reason — and
returns every step at a position below k completely unchanged. -/
theorem C2_cascading_rejection (now : String) (steps : List WorkflowStep)
    (k : Nat) (notes : String) :
    (handleCascadingRejection now steps k notes).length = steps.length
    ∧ ∀ i : Nat, ∀ s : WorkflowStep, steps[i]? = some s →
        (s.step_order < k → (handleCascadingRejection now steps k notes)[i]? = some s)
        ∧ (s.step_order = k →
            (handleCascadingRejection now steps k notes)[i]? =
              some { s with
                status := "rejected"
                completedAt := some now
                rejection_reason := some notes })
        ∧ (k < s.step_order →
            (handleCascadingRejection now steps k notes)[i]? =
              some { s with
                status := "rejected"
                completedAt := some now
                rejection_reason := some "Cascaded rejection from previous step" }) := by
  constructor
  · simp [handleCascadingRejection]
  · intro i s hs
    have hbase : (handleCascadingRejection now steps k notes)[i]? =
        some (if k ≤ s.step_order then
          { s with
            status := "rejected"
            completedAt := some now
            rejection_reason := some (if s.step_order = k then notes
              else "Cascaded rejection from previous step") }
        else s) := by
      unfold handleCascadingRejection
      rw [List.getElem?_map, hs]
      rfl
    refine ⟨fun hlt => ?_, fun heq => ?_, fun hgt => ?_⟩
    · rw [hbase, if_neg (by omega)]
    · rw [hbase, if_pos (by omega), if_pos heq]
    · rw [hbase, if_pos (by omega), if_neg (by omega)]

/-- Witness for C2 on the concrete three-step chain, rejected at position 2:
the earlier approved step is unchanged, the rejected step carries the actor
reason, the later step carries the cascade reason. -/
theorem C2_cascading_rejection_witness :
    (handleCascadingRejection "t0" cascadeSteps 2 "pricing")[0]? =
        some (fixStep "a1" "deal_desk" 1 "approved")
    ∧ (handleCascadingRejection "t0" cascadeSteps 2 "pricing")[1]? =
        some { (fixStep "a2" "legal" 2 "pending") with
          status := "rejected"
          completedAt := some "t0"
          rejection_reason := some "pricing" }
    ∧ (handleCascadingRejection "t0" cascadeSteps 2 "pricing")[2]? =
        some { (fixStep "a3" "customer" 3 "pending") with
          status := "rejected"
          completedAt := some "t0"
          rejection_reason := some "Cascaded rejection from previous step" } := by
  refine ⟨?_, ?_, ?_⟩
  · exact ((C2_cascading_rejection "t0" cascadeSteps 2 "pricing").2 0
      (fixStep "a1" "deal_desk" 1 "approved") (by decide)).1 (by decide)
  · exact ((C2_cascading_rejection "t0" cascadeSteps 2 "pricing").2 1
      (fixStep "a2" "legal" 2 "pending") (by decide)).2.1 (by decide)
  · exact ((C2_cascading_rejection "t0" cascadeSteps 2 "pricing").2 2
      (fixStep "a3" "customer" 3 "pending") (by decide)).2.2 (by decide)

/-- Any temporary step id makes the step-action endpoints match the blocked
pattern of APIClient.request, for any endpoint tail. -/
theorem blocked_pattern_of_temp_id (sid tl : String)
    (h : jsStartsWith sid "step-" = true) :
    jsIncludes ("/api/workflow/steps/" ++ sid ++ tl) "/workflow/steps/step-" = true := by
  obtain ⟨t, ht⟩ := of_decide_eq_true h
  unfold jsIncludes
  apply decide_eq_true
  refine ⟨"/api".data, t ++ tl.data, ?_⟩
  have hsplit : "/api".data ++ "/workflow/steps/step-".data =
      "/api/workflow/steps/".data ++ "step-".data := by decide
  calc "/api".data ++ "/workflow/steps/step-".data ++ (t ++ tl.data)
      = ("/api".data ++ "/workflow/steps/step-".data) ++ (t ++ tl.data) := by
        simp [List.append_assoc]
    _ = ("/api/workflow/steps/".data ++ "step-".data) ++ (t ++ tl.data) := by rw [hsplit]
    _ = "/api/workflow/steps/".data ++ ("step-".data ++ t) ++ tl.data := by
        simp [List.append_assoc]
    _ = "/api/workflow/steps/".data ++ sid.data ++ tl.data := by rw [ht]
    _ = ("/api/workflow/steps/" ++ sid ++ tl).data := by simp [String.data_append]

/-- Every endpoint built by suffixing a fixed tail contains that tail. -/
theorem includes_own_tail (pre tl : String) :
    jsIncludes (pre ++ tl) tl = true := by
  unfold jsIncludes
  apply decide_eq_true
  refine ⟨pre.data, [], ?_⟩
  simp [String.data_append]

/-- Claim C5: every approve or reject attempt against a temporary (preview)
step identifier fails with an error and issues no request — at the react-query
mutation layer and at the API-client layer, including the reject path that is
caught only by the shared endpoint guard of APIClient.request. -/
theorem C5_temporary_id_guard (stepId : String)
    (h : jsStartsWith stepId "step-" = true) :
    workflowApproveMutation stepId =
        ActionOutcome.errorOut "Cannot approve step with temporary ID"
    ∧ workflowRejectMutation stepId =
        ActionOutcome.errorOut "Cannot reject step with temporary ID"
    ∧ apiApproveStep stepId =
        ActionOutcome.errorOut "Cannot approve step with temporary ID"
    ∧ apiRejectStep stepId =
        ActionOutcome.errorOut "Cannot perform actions on temporary step IDs" := by
  refine ⟨?_, ?_, ?_, ?_⟩
  · simp [workflowApproveMutation, h]
  · simp [workflowRejectMutation, h]
  · simp [apiApproveStep, h]
  · have h1 := blocked_pattern_of_temp_id stepId "/reject" h
    have h2 := includes_own_tail ("/api/workflow/steps/" ++ stepId) "/reject"
    unfold apiRejectStep apiRequest
    rw [show "/api/workflow/steps/" ++ stepId ++ "/reject"
          = ("/api/workflow/steps/" ++ stepId) ++ "/reject" from rfl] at h1 ⊢
    rw [h1, h2]
    simp

/-- Witness for C5 at the concrete temporary identifier step-3. -/
theorem C5_temporary_id_guard_witness :
    workflowApproveMutation "step-3" =
        ActionOutcome.errorOut "Cannot approve step with temporary ID"
    ∧ workflowRejectMutation "step-3" =
        ActionOutcome.errorOut "Cannot reject step with temporary ID"
    ∧ apiApproveStep "step-3" =
        ActionOutcome.errorOut "Cannot approve step with temporary ID"
    ∧ apiRejectStep "step-3" =
        ActionOutcome.errorOut "Cannot perform actions on temporary step IDs" :=
  C5_temporary_id_guard "step-3" (by decide)

/-- Counterexample for C6: an attempted direct rejection with a missing or
blank reason does not fail with an error as the claim states — the quote
detail handler returns silently on a whitespace-only reason and the quotes
manager handler returns silently on a cancelled prompt, raising nothing; the
quotes manager handler moreover accepts a whitespace-only reason outright and
issues the rejection request carrying the blank text instead of any error. -/
theorem C6_counterexample :
    handleActionReject "   " cascadeSteps "legal" = ActionOutcome.silentNoop
    ∧ (handleActionReject "   " cascadeSteps "legal").isError = false
    ∧ handleRejectQuote none cascadeSteps "legal" = ActionOutcome.silentNoop
    ∧ (handleRejectQuote none cascadeSteps "legal").isError = false
    ∧ handleRejectQuote (some "   ") cascadeSteps "legal" =
        ActionOutcome.request "a2" "   " := by
  refine ⟨by decide, by decide, by decide, by decide, by decide⟩

/-- Claim C6 (amended): a rejection attempt with a missing or blank reason
never fails with an error, and the two handlers guard differently. The quote
detail handler returns silently whenever the reason trims to empty, issuing
no request and mutating no state; the quotes manager handler returns silently
only for a cancelled or empty prompt, and any other reason — a whitespace-only
one included — is sent as the rejection request carrying the actor's text;
with a non-blank reason and a pending durable step of the acting persona the
detail handler's request carries the actor's own reason. -/
theorem C6_blank_reason_guard (comments : String) (steps : List WorkflowStep)
    (persona : String) :
    (jsTrim comments = "" →
      handleActionReject comments steps persona = ActionOutcome.silentNoop)
    ∧ (∀ r : Option String, r = none ∨ r = some "" →
        handleRejectQuote r steps persona = ActionOutcome.silentNoop)
    ∧ (∀ (r : String) (st : WorkflowStep), ¬ r = "" →
        steps.find? (fun s => s.persona = persona && s.status = "pending") = some st →
        handleRejectQuote (some r) steps persona = ActionOutcome.request st.id r)
    ∧ (∀ st : WorkflowStep,
        steps.find? (fun s => s.persona = persona && s.status = "pending") = some st →
        jsStartsWith st.id "step-" = false →
        ¬ jsTrim comments = "" →
        handleActionReject comments steps persona = ActionOutcome.request st.id comments) := by
  refine ⟨fun h => ?_, ?_, fun r st hr hfind => ?_, fun st hfind hdur hne => ?_⟩
  · simp [handleActionReject, h]
  · rintro r (rfl | rfl)
    · rfl
    · simp [handleRejectQuote]
  · simp [handleRejectQuote, hr, hfind]
  · simp [handleActionReject, hne, hfind, hdur]

/-- Witness for C6 (amended) at a blank reason, a missing reason, a
whitespace-only reason passing the quotes manager guard, and a real rejection
of the pending legal step with a durable identifier. -/
theorem C6_blank_reason_guard_witness :
    handleActionReject "  " cascadeSteps "legal" = ActionOutcome.silentNoop
    ∧ handleRejectQuote none cascadeSteps "legal" = ActionOutcome.silentNoop
    ∧ handleRejectQuote (some " x ") cascadeSteps "legal" =
        ActionOutcome.request "a2" " x "
    ∧ handleActionReject "bad terms" cascadeSteps "legal" =
        ActionOutcome.request "a2" "bad terms" :=
  ⟨(C6_blank_reason_guard "  " cascadeSteps "legal").1 (by decide),
   (C6_blank_reason_guard "" cascadeSteps "legal").2.1 none (Or.inl rfl),
   (C6_blank_reason_guard "" cascadeSteps "legal").2.2.1 " x "
     (fixStep "a2" "legal" 2 "pending") (by decide) (by decide),
   (C6_blank_reason_guard "bad terms" cascadeSteps "legal").2.2.2
     (fixStep "a2" "legal" 2 "pending") (by decide) (by decide) (by decide)⟩

/-- Counterexample for C7: for a rejected — hence non-approved — quote the
engine guard does allow cancel, but the quote-actions menu offers only reopen,
so termination is not available from every non-approved status in the action
UI; and a missing or empty reason does not make the operation fail — the
handler substitutes the fixed reason instead of requiring one. -/
theorem C7_counterexample :
    canPerformAction rejectedQuote "ae" "cancel" = true
    ∧ getAvailableActions rejectedQuote "ae" = ["reopen"]
    ∧ handleQuoteAction "q7" "terminate" (some "") =
        some (ApiCall.terminateQuote "q7" "Terminated by user")
    ∧ handleQuoteAction "q7" "cancel" none =
        some (ApiCall.terminateQuote "q7" "Terminated by user") := by
  refine ⟨by decide, by decide, by decide, by decide⟩

/-- Claim C7 (amended): terminate (surfaced as cancel) is AE-only; the engine
guard permits it exactly from every non-approved status, while the actions
menu offers it exactly when the status is none of approved, cancelled and
rejected; the reason is not required — a missing or empty reason is replaced
by the fixed text, and the terminate request always carries the resulting
non-empty reason. -/
theorem C7_terminate_availability (q : Quote) (persona : String)
    (comments : Option String) (qid : String) :
    (canPerformAction q persona "cancel" = true ↔
      persona = "ae" ∧ ¬ q.status = "approved")
    ∧ ("cancel" ∈ getAvailableActions q persona ↔
        persona = "ae" ∧ ¬ q.status = "approved" ∧ ¬ q.status = "cancelled"
          ∧ ¬ q.status = "rejected")
    ∧ ¬ terminateReason comments = ""
    ∧ (∀ c : String, comments = some c → ¬ c = "" → terminateReason comments = c)
    ∧ handleQuoteAction qid "cancel" comments =
        some (ApiCall.terminateQuote qid (terminateReason comments))
    ∧ handleQuoteAction qid "terminate" comments =
        some (ApiCall.terminateQuote qid (terminateReason comments)) := by
  refine ⟨?_, ?_, ?_, ?_, rfl, rfl⟩
  · by_cases hp : persona = "ae" <;> by_cases hs : q.status = "approved" <;>
      simp [canPerformAction, hp, hs]
  · by_cases hp : persona = "ae"
    · by_cases hs : q.status = "approved" <;> by_cases hc : q.status = "cancelled" <;>
        by_cases hr : q.status = "rejected" <;>
        by_cases hd : q.status = "draft" <;> by_cases hd2 : q.status = "draft_reopened" <;>
        simp_all [getAvailableActions]
    · by_cases hq : q.status = "pending_" ++ persona <;>
        simp [getAvailableActions, hp, hq]
  · match comments with
    | none => decide
    | some c =>
        by_cases hc : c = "" <;> simp [terminateReason, hc]
  · intro c hc hne
    subst hc
    simp [terminateReason, hne]

/-- Witness for C7 (amended) on the rejected quote and a concrete reason. -/
theorem C7_terminate_availability_witness :
    canPerformAction rejectedQuote "ae" "cancel" = true
    ∧ terminateReason (some "deal dead") = "deal dead" :=
  ⟨(C7_terminate_availability rejectedQuote "ae" (some "deal dead") "q7").1.mpr
      ⟨rfl, by decide⟩,
   (C7_terminate_availability rejectedQuote "ae" (some "deal dead") "q7").2.2.2.1
      "deal dead" rfl (by decide)⟩

/-- Renumbering assigns the contiguous positions n, n+1, ... to the list. -/
theorem renumberFrom_orders (n : Nat) (l : List WorkflowStep) :
    (renumberFrom n l).map (fun s => s.step_order) = natsFrom n l.length := by
  induction l generalizing n with
  | nil => rfl
  | cons s ss ih => simp [renumberFrom, natsFrom, ih]

/-- Renumbering leaves the persona sequence untouched. -/
theorem renumberFrom_personas (n : Nat) (l : List WorkflowStep) :
    (renumberFrom n l).map (fun s => s.persona) = l.map (fun s => s.persona) := by
  induction l generalizing n with
  | nil => rfl
  | cons s ss ih => simp [renumberFrom, ih]

/-- The contiguous position list grows by its final position on the right. -/
theorem natsFrom_snoc (n len : Nat) :
    natsFrom n (len + 1) = natsFrom n len ++ [n + len] := by
  induction len generalizing n with
  | zero => rfl
  | succ m ih =>
      rw [natsFrom, ih (n + 1), natsFrom]
      simp [Nat.add_assoc, Nat.add_comm 1 m]

/-- Renumbering preserves the length of the list. -/
theorem renumberFrom_length (n : Nat) (l : List WorkflowStep) :
    (renumberFrom n l).length = l.length := by
  induction l generalizing n with
  | nil => rfl
  | cons s ss ih => simp [renumberFrom, ih]

/-- A removal renumbers the remaining steps to contiguous positions 1..N. -/
theorem removeStep_orders (steps : List WorkflowStep) (sid : String) :
    ((removeStep steps sid).map fun s => s.step_order)
      = natsFrom 1 (removeStep steps sid).length := by
  unfold removeStep
  rw [renumberFrom_orders, renumberFrom_length]

/-- An effective drag-and-drop reorder renumbers to contiguous positions 1..N. -/
theorem handleDrop_orders (steps : List WorkflowStep) (did tid : String)
    (hne : ¬ did = tid) (h1 : steps.any (fun s => s.id = did) = true)
    (h2 : steps.any (fun s => s.id = tid) = true) :
    ((handleDrop steps did tid).map fun s => s.step_order)
      = natsFrom 1 (handleDrop steps did tid).length := by
  have hdlt : steps.findIdx (fun s => decide (s.id = did)) < steps.length := by
    rw [List.any_eq_true] at h1
    obtain ⟨s, hs, hp⟩ := h1
    exact List.findIdx_lt_length_of_exists ⟨s, hs, hp⟩
  unfold handleDrop
  rw [if_neg hne]
  rw [if_pos (by rw [h1, h2]; rfl)]
  obtain ⟨removed, hrem⟩ :
      ∃ r, steps[steps.findIdx (fun s => decide (s.id = did))]? = some r :=
    ⟨_, List.getElem?_eq_getElem hdlt⟩
  simp only [hrem]
  rw [renumberFrom_orders, renumberFrom_length]

/-- Appending a new step extends already-contiguous positions by N + 1. -/
theorem addNewStep_orders (steps : List WorkflowStep) (pers nid : String)
    (h : (steps.map fun s => s.step_order) = natsFrom 1 steps.length) :
    ((addNewStep steps pers nid).map fun s => s.step_order)
      = natsFrom 1 (addNewStep steps pers nid).length := by
  unfold addNewStep
  rw [List.map_append, h]
  simp [natsFrom_snoc, Nat.add_comm]

/-- When the edit dropped every account-executive step, the save normalization
unshifts a fresh ae step to the front and renumbers from position 1. -/
theorem handleWorkflowUpdate_of_no_ae (nowId : String) (l : List WorkflowStep)
    (h : (l.any fun s => s.persona = "ae") = false) :
    handleWorkflowUpdate nowId l = renumberFrom 1 (aeStep nowId :: l) := by
  unfold handleWorkflowUpdate
  rw [if_neg (by simp [h])]

/-- The save normalization keeps a contiguous chain contiguous: the ae-first
branch leaves the renumbered edit untouched, the other branches renumber. -/
theorem handleWorkflowUpdate_orders (nowId : String) (l : List WorkflowStep)
    (h : (l.map fun s => s.step_order) = natsFrom 1 l.length) :
    ((handleWorkflowUpdate nowId l).map fun s => s.step_order)
      = natsFrom 1 (handleWorkflowUpdate nowId l).length := by
  unfold handleWorkflowUpdate
  by_cases hae : (l.any fun s => decide (s.persona = "ae")) = true
  · rw [if_pos hae]
    by_cases h0 : (l.findIdx fun s => decide (s.persona = "ae")) = 0
    · rw [if_pos h0]
      exact h
    · rw [if_neg h0]
      have hlt : (l.findIdx fun s => decide (s.persona = "ae")) < l.length := by
        rw [List.any_eq_true] at hae
        obtain ⟨s, hs, hp⟩ := hae
        exact List.findIdx_lt_length_of_exists ⟨s, hs, hp⟩
      obtain ⟨ae, hget⟩ :
          ∃ r, l[(l.findIdx fun s => decide (s.persona = "ae"))]? = some r :=
        ⟨_, List.getElem?_eq_getElem hlt⟩
      simp only [hget]
      rw [renumberFrom_orders, renumberFrom_length]
  · rw [if_neg hae]
    rw [renumberFrom_orders, renumberFrom_length]

/-- Claim C9: every save of an edited draft workflow chain is normalized by
the builder — when the edit dropped the account-executive step the save
handler re-inserts a fresh ae step at position 1 and renumbers, and after each
edit operation (remove, drag-and-drop reorder, add) composed with the save
normalization the sequence positions are exactly 1..N with no gaps or
duplicates. -/
theorem C9_builder_normalization (steps : List WorkflowStep)
    (sid did tid pers tsId nowId : String) :
    (∀ l : List WorkflowStep, (l.any fun s => s.persona = "ae") = false →
        (handleWorkflowUpdate nowId l).head? = some (aeStep nowId)
        ∧ ((handleWorkflowUpdate nowId l).map fun s => s.step_order)
            = natsFrom 1 (l.length + 1))
    ∧ ((handleWorkflowUpdate nowId (removeStep steps sid)).map fun s => s.step_order)
        = natsFrom 1 (handleWorkflowUpdate nowId (removeStep steps sid)).length
    ∧ (¬ did = tid → steps.any (fun s => s.id = did) = true →
        steps.any (fun s => s.id = tid) = true →
        ((handleWorkflowUpdate nowId (handleDrop steps did tid)).map fun s => s.step_order)
          = natsFrom 1 (handleWorkflowUpdate nowId (handleDrop steps did tid)).length)
    ∧ ((steps.map fun s => s.step_order) = natsFrom 1 steps.length →
        ((handleWorkflowUpdate nowId (addNewStep steps pers tsId)).map fun s => s.step_order)
          = natsFrom 1 (handleWorkflowUpdate nowId (addNewStep steps pers tsId)).length) := by
  refine ⟨fun l hl => ?_, ?_, fun hne h1 h2 => ?_, fun hsteps => ?_⟩
  · rw [handleWorkflowUpdate_of_no_ae nowId l hl]
    constructor
    · rfl
    · rw [renumberFrom_orders]
      rfl
  · exact handleWorkflowUpdate_orders nowId _ (removeStep_orders steps sid)
  · exact handleWorkflowUpdate_orders nowId _ (handleDrop_orders steps did tid hne h1 h2)
  · exact handleWorkflowUpdate_orders nowId _ (addNewStep_orders steps pers tsId hsteps)

/-- Witness for C9: removing the ae step from the concrete draft chain and
saving re-inserts a fresh ae step at position 1 with contiguous positions, and
a saved reorder of the same chain stays contiguous. -/
theorem C9_builder_normalization_witness :
    (handleWorkflowUpdate "n1" (removeStep builderSteps "s1")).head? = some (aeStep "n1")
    ∧ ((handleWorkflowUpdate "n1" (removeStep builderSteps "s1")).map fun s => s.step_order)
        = [1, 2, 3]
    ∧ ((handleWorkflowUpdate "n1" (handleDrop builderSteps "s3" "s2")).map fun s => s.step_order)
        = [1, 2, 3] := by
  have h := C9_builder_normalization builderSteps "s1" "s3" "s2" "legal" "t9" "n1"
  have hd := h.1 (removeStep builderSteps "s1") (by decide)
  refine ⟨hd.1, ?_, ?_⟩
  · rw [hd.2]
    decide
  · rw [h.2.2.1 (by decide) (by decide) (by decide)]
    decide

/-- A true canApproveStep guard really means every lower-position step is
approved. -/
theorem canApproveStep_all_lower (q : Quote) (ord : Nat) (steps : List WorkflowStep)
    (h : canApproveStep q ord steps = true) :
    ∀ t ∈ steps, t.step_order < ord → t.status = "approved" := by
  intro t ht hlt
  unfold canApproveStep at h
  rw [List.all_eq_true] at h
  have hmem : t ∈ steps.filter (fun s => decide (s.step_order < ord)) :=
    List.mem_filter.mpr ⟨ht, decide_eq_true hlt⟩
  exact of_decide_eq_true (h t hmem)

/-- The status update of an approval never changes a step's sequence position. -/
theorem approve_map_keeps_order (ord : Nat) (v : WorkflowStep) :
    ((if v.step_order = ord then { v with status := "approved" } else v).step_order)
      = v.step_order := by
  split <;> rfl

/-- The cascade update never changes a step's sequence position. -/
theorem cascadeUpdate_order (now : String) (k : Nat) (notes : String) (v : WorkflowStep) :
    (cascadeUpdate now k notes v).step_order = v.step_order := by
  unfold cascadeUpdate
  split <;> rfl

/-- The cascade update rejects every step at or after the rejected position. -/
theorem cascadeUpdate_status_of_ge (now : String) (k : Nat) (notes : String)
    (v : WorkflowStep) (h : k ≤ v.step_order) :
    (cascadeUpdate now k notes v).status = "rejected" := by
  unfold cascadeUpdate
  rw [if_pos h]

/-- The cascade update leaves steps before the rejected position untouched. -/
theorem cascadeUpdate_eq_of_lt (now : String) (k : Nat) (notes : String)
    (v : WorkflowStep) (h : ¬ k ≤ v.step_order) :
    cascadeUpdate now k notes v = v := by
  unfold cascadeUpdate
  rw [if_neg h]

/-- Claim C3: starting from a freshly materialized all-pending chain, every
state reachable through guarded approvals and cascading rejections satisfies
the sequential invariant — no step is approved while a step at a lower
position is not — and an approval attempt whose guard fails is refused with
no state produced. -/
theorem C3_sequential_approval :
    (∀ init s : List WorkflowStep, AllPending init → Reachable init s → SeqInv s)
    ∧ (∀ (steps : List WorkflowStep) (ord : Nat),
        canApproveStep dummyQuote ord steps = false →
        approveStepGuarded steps ord = none) := by
  constructor
  · intro init s hpend hreach
    induction hreach with
    | refl =>
        intro u hu happ t ht hlt
        have := hpend u hu
        rw [happ] at this
        exact absurd this (by decide)
    | approve hr hstep ih =>
        rename_i s1 s2 ord
        unfold approveStepGuarded at hstep
        split at hstep
        · rename_i hcond
          rw [Option.some.injEq] at hstep
          subst hstep
          have hcan : canApproveStep dummyQuote ord s1 = true := by
            rw [Bool.and_eq_true] at hcond
            exact hcond.2
          have hlow := canApproveStep_all_lower dummyQuote ord s1 hcan
          intro u hu happ t ht hlt
          obtain ⟨v, hv, rfl⟩ := List.mem_map.mp hu
          obtain ⟨w, hw, rfl⟩ := List.mem_map.mp ht
          rw [approve_map_keeps_order, approve_map_keeps_order] at hlt
          by_cases hword : w.step_order = ord
          · simp [hword]
          · simp only [if_neg hword]
            by_cases hvord : v.step_order = ord
            · exact hlow w hw (hvord ▸ hlt)
            · simp only [if_neg hvord] at happ
              exact ih v hv happ w hw hlt
        · exact absurd hstep (by simp)
    | reject now k notes hr ih =>
        intro u hu happ t ht hlt
        unfold handleCascadingRejection at hu ht
        obtain ⟨v, hv, rfl⟩ := List.mem_map.mp hu
        obtain ⟨w, hw, rfl⟩ := List.mem_map.mp ht
        rw [cascadeUpdate_order, cascadeUpdate_order] at hlt
        by_cases hvk : k ≤ v.step_order
        · rw [cascadeUpdate_status_of_ge now k notes v hvk] at happ
          exact absurd happ (by decide)
        · rw [cascadeUpdate_eq_of_lt now k notes v hvk] at happ
          have hwk : ¬ k ≤ w.step_order := by omega
          rw [cascadeUpdate_eq_of_lt now k notes w hwk]
          exact ih v hv happ w hw hlt
  · intro steps ord h
    unfold approveStepGuarded
    rw [h]
    simp

/-- Witness for C3: the fresh two-step chain satisfies the invariant at its
initial reachable state, and approving its second step while the first is
still pending is refused. -/
theorem C3_sequential_approval_witness :
    SeqInv freshSteps ∧ approveStepGuarded freshSteps 2 = none :=
  ⟨C3_sequential_approval.1 freshSteps freshSteps
      (by unfold AllPending; decide) (Reachable.refl freshSteps),
   C3_sequential_approval.2 freshSteps 2 (by decide)⟩

/-- Claim C4: when an approval makes every non-customer step approved and a
customer step is pending, the single applyApprove operation — the update plus
the trigger it fires — already returns the final state: the quote status is
approved, no customer step is left pending, and a customer step stands
approved as a system auto-approval with the fixed comment. No intermediate
state with all internal steps approved but the customer step or quote status
still pending is ever returned to a caller. -/
theorem C4_auto_customer_approval (now : String) (st : EngineState) (stepId : String)
    (old : WorkflowStep)
    (hfind : st.steps.find? (fun s => s.id = stepId) = some old)
    (hold : ¬ old.status = "approved")
    (hinternal : ∀ s ∈ (setStepApproved st stepId).steps,
        ¬ s.persona = "customer" → s.status = "approved")
    (hcust : ∃ c ∈ (setStepApproved st stepId).steps,
        c.persona = "customer" ∧ c.status = "pending") :
    (applyApprove now st stepId).quote_status = "approved"
    ∧ (∀ s ∈ (applyApprove now st stepId).steps,
        s.persona = "customer" → ¬ s.status = "pending")
    ∧ (∃ s ∈ (applyApprove now st stepId).steps,
        s.persona = "customer" ∧ s.status = "approved" ∧ s.auto_approved = true
        ∧ s.comments = some "Auto-approved: All internal approvals completed") := by
  have hall : allInternalApproved (setStepApproved st stepId).steps = true := by
    unfold allInternalApproved
    rw [List.all_eq_true]
    intro s hs
    by_cases hpers : s.persona = "customer"
    · simp [hpers]
    · simp [hpers, hinternal s hs hpers]
  have hany : ((setStepApproved st stepId).steps.any fun s =>
      s.persona = "customer" && s.status = "pending") = true := by
    rw [List.any_eq_true]
    obtain ⟨c, hc, hcp, hcs⟩ := hcust
    exact ⟨c, hc, by simp [hcp, hcs]⟩
  have happly : applyApprove now st stepId =
      runAutoApproveTrigger now (setStepApproved st stepId) old.status "approved" := by
    unfold applyApprove
    rw [hfind]
  have htrig : runAutoApproveTrigger now (setStepApproved st stepId) old.status "approved" =
      { quote_status := "approved"
        steps := (setStepApproved st stepId).steps.map fun s =>
          if s.persona = "customer" && s.status = "pending" then
            { s with
                status := "approved"
                auto_approved := true
                completedAt := some now
                comments := some "Auto-approved: All internal approvals completed" }
          else s } := by
    unfold runAutoApproveTrigger
    rw [if_pos (by simp [hold]), if_pos hall, hany]
    simp
  rw [happly, htrig]
  refine ⟨rfl, ?_, ?_⟩
  · intro s hs hpers
    obtain ⟨v, hv, rfl⟩ := List.mem_map.mp hs
    by_cases hcond : (v.persona = "customer" && v.status = "pending") = true
    · rw [if_pos hcond]
      simp
    · rw [if_neg hcond] at hpers ⊢
      rw [Bool.and_eq_true] at hcond
      intro hps
      exact hcond ⟨decide_eq_true hpers, decide_eq_true hps⟩
  · obtain ⟨c, hc, hcp, hcs⟩ := hcust
    refine ⟨_, List.mem_map.mpr ⟨c, hc, rfl⟩, ?_⟩
    rw [if_pos (by simp [hcp, hcs])]
    exact ⟨hcp, rfl, rfl, rfl⟩

/-- Witness for C4: approving the last internal (legal) step of the concrete
almost-done state yields quote status approved with the customer step
auto-approved in the same operation. -/
theorem C4_auto_customer_approval_witness :
    (applyApprove "t1" almostDone "c2").quote_status = "approved"
    ∧ (∃ s ∈ (applyApprove "t1" almostDone "c2").steps,
        s.persona = "customer" ∧ s.status = "approved" ∧ s.auto_approved = true
        ∧ s.comments = some "Auto-approved: All internal approvals completed") := by
  have h := C4_auto_customer_approval "t1" almostDone "c2"
    (fixStep "c2" "legal" 2 "pending") (by decide) (by decide)
    (by intro s hs hp; fin_cases hs <;> simp_all [setStepApproved, almostDone, fixStep])
    (by
      refine ⟨fixStep "c3" "customer" 3 "pending", ?_, rfl, rfl⟩
      simp [setStepApproved, almostDone, fixStep])
  exact ⟨h.1, h.2.2⟩

end CanyonCPQ
